import Mathlib

/-!
Shallow embedding of the fagent message-processing pipeline.

The embedding follows the JavaScript/TypeScript sources:
* `Enhanced` models the enhanced `Agent` class (validation, rate limiting,
  retry executor, message queue) from the enhanced-agent source file.
* `CoreAgent` models the dispatch loop of the plain `Agent` class in
  `core/agent.js`.
* `MemoryStore` models `core/memory.js` (Cloudflare-KV-backed memory with
  TTL expiry).

JavaScript machine details are embedded explicitly: truthiness of the
field values that the code tests with `!x` is modelled by `JsVal.truthy`
(`undefined` and the empty string are falsy; non-string values carry their
truthiness); fallible code returns `Except`; `Date.now()` and the KV
clock are explicit `Nat` parameters.
-/

namespace Enhanced

/-- A JavaScript value as far as `validateMessage` inspects one:
`undefined`, a string, or some non-string value carrying its truthiness. -/
inductive JsVal where
  | undef : JsVal
  | str : String → JsVal
  | other : Bool → JsVal
deriving DecidableEq

/-- JS truthiness: `undefined` is falsy, a string is truthy iff nonempty,
a non-string value carries its own truthiness. -/
def JsVal.truthy : JsVal → Bool
  | .undef => false
  | .str s => !s.isEmpty
  | .other b => b

/-- The author object of an inbound message; only `username` is inspected. -/
structure Author where
  username : JsVal
deriving DecidableEq

/-- An inbound message: platform, text, optional author object, and an
opaque raw payload (standing for all fields `validateMessage` never touches). -/
structure Message where
  platform : JsVal
  text : JsVal
  author : Option Author
  raw : String
deriving DecidableEq

/-- Whitespace characters removed by JavaScript `String.prototype.trim`
(the ASCII ones; the sources only ever hit these). -/
def isJsWs (c : Char) : Bool :=
  c == ' ' || c == '\t' || c == '\n' || c == '\r' ||
    c == Char.ofNat 11 || c == Char.ofNat 12

/-- The denylist of `replace(/[\\<>]/g, '')`: backslash, `<`, `>`. -/
def harmful (c : Char) : Bool :=
  c == '\\' || c == '<' || c == '>'

/-- `trim` on a character list: drop JS whitespace from both ends. -/
def jsTrimList (l : List Char) : List Char :=
  ((l.dropWhile isJsWs).reverse.dropWhile isJsWs).reverse

/-- The sanitization pipeline of `validateMessage`:
`text.trim().replace(/[\\<>]/g, '').slice(0, 2000)`. -/
def sanitizeText (s : String) : String :=
  String.mk (((jsTrimList s.data).filter (fun c => !harmful c)).take 2000)

def errNoPlatform : String := "Message must have a platform"
def errNoText : String := "Message must have valid text content"
def errNoAuthor : String := "Message must have an author with a username"

/-- `validateMessage` from the enhanced agent: raises (`Except.error`) on a
falsy platform, falsy or non-string text, or missing/falsy author username;
otherwise sanitizes `text` in place and leaves every other field unchanged. -/
def validateMessage (msg : Message) : Except String Message :=
  if msg.platform.truthy = false then .error errNoPlatform
  else
    match msg.text with
    | .str s =>
      if s.isEmpty then .error errNoText
      else
        match msg.author with
        | none => .error errNoAuthor
        | some a =>
          if a.username.truthy = false then .error errNoAuthor
          else .ok ⟨msg.platform, .str (sanitizeText s), msg.author, msg.raw⟩
    | _ => .error errNoText

/-- The rate-limit window stored per resource key:
`{ count, resetTime }` (times in milliseconds, as `Date.now()`). -/
structure RLWindow where
  count : Nat
  resetTime : Nat
deriving DecidableEq

/-- `RATE_LIMIT_CONFIG`. -/
structure RateLimitConfig where
  maxRequests : Nat
  timeWindow : Nat
deriving DecidableEq

def RATE_LIMIT_CONFIG : RateLimitConfig := ⟨50, 60000⟩

/-- `checkRateLimit` for a single resource key, with `Date.now()` passed in
as `now` and the map entry for the key as the state (`none` = no window
stored). Returns the admission decision and the updated entry. -/
def checkRateLimit (now : Nat) : Option RLWindow → Bool × Option RLWindow
  | none => (true, some ⟨1, now + RATE_LIMIT_CONFIG.timeWindow⟩)
  | some w =>
    if now > w.resetTime then (true, some ⟨1, now + RATE_LIMIT_CONFIG.timeWindow⟩)
    else if w.count ≥ RATE_LIMIT_CONFIG.maxRequests then (false, some w)
    else (true, some ⟨w.count + 1, w.resetTime⟩)

/-- Run `checkRateLimit` for a sequence of calls, the n-th at time `ts[n]`,
threading the stored window; returns the decisions in order and the final window. -/
def rlCalls : List Nat → Option RLWindow → List Bool × Option RLWindow
  | [], st => ([], st)
  | t :: ts, st =>
    let step := checkRateLimit t st
    let rest := rlCalls ts step.2
    (step.1 :: rest.1, rest.2)

/-- `RETRY_CONFIG`. -/
structure RetryConfig where
  maxRetries : Nat
  baseDelay : Nat
  maxDelay : Nat
deriving DecidableEq

def RETRY_CONFIG : RetryConfig := ⟨3, 1000, 5000⟩

/-- The backoff of an attempt:
`Math.min(maxDelay, baseDelay * Math.pow(2, attempt))`. -/
def backoff (attempt : Nat) : Nat :=
  min RETRY_CONFIG.maxDelay (RETRY_CONFIG.baseDelay * 2 ^ attempt)

/-- A thrown JS error, as far as `shouldRetry` inspects one: `name`,
`message`, and `response.status` when a response object is present. -/
structure JsError where
  name : String
  message : String
  status : Option Nat
deriving DecidableEq

/-- `needle.isPrefixOf` at some position of the haystack: JavaScript
`String.prototype.includes`. -/
def containsSub (needle : List Char) : List Char → Bool
  | [] => needle.isEmpty
  | c :: rest => needle.isPrefixOf (c :: rest) || containsSub needle rest

def networkErrorName : String := "NetworkError"
def rateLimitNeedle : String := "rate limit"

/-- `shouldRetry`: retry on `NetworkError`, a message mentioning a rate
limit, or an HTTP status in 429/503/502. -/
def shouldRetry (e : JsError) : Bool :=
  e.name == networkErrorName
  || containsSub rateLimitNeedle.data e.message.data
  || (match e.status with
      | some s => s == 429 || s == 503 || s == 502
      | none => false)

def retriesExhaustedMsg : String := "Operation failed after all retries"

/-- The generic `new Error('Operation failed after all retries')`. -/
def exhaustedError : JsError := ⟨errorName, retriesExhaustedMsg, none⟩
where errorName : String := "Error"

/-- Observable trace of one `withRetry` run: the returned value or thrown
error, how many times the wrapped operation was invoked, and the backoff
sleeps performed, tagged with the attempt index at which each occurred —
`rejSleeps` for rate-limit rejections, `errSleeps` after retryable failures. -/
structure RetryTrace (α : Type) where
  result : Except JsError α
  opCalls : Nat
  rejSleeps : List (Nat × Nat)
  errSleeps : List (Nat × Nat)

/-- The body of `withRetry`'s `for` loop. `admits a` is what
`checkRateLimit(key)` returns on the iteration with attempt index `a`
(each iteration performs exactly one check), and `op k` is the outcome of
the k-th invocation of the wrapped operation. A rate-limit rejection
executes `continue`, which still runs the `attempt++` update of the `for`
loop, so `fuel` decreases and `attempt` increases on every path. -/
def withRetryAux (admits : Nat → Bool) (op : Nat → Except JsError α) :
    Nat → Nat → Nat → Option JsError → RetryTrace α
  | 0, _, _, lastError =>
    ⟨.error (lastError.getD exhaustedError), 0, [], []⟩
  | fuel + 1, attempt, opIdx, lastError =>
    if admits attempt = false then
      let t := withRetryAux admits op fuel (attempt + 1) opIdx lastError
      ⟨t.result, t.opCalls, (attempt, backoff attempt) :: t.rejSleeps, t.errSleeps⟩
    else
      match op opIdx with
      | .ok v => ⟨.ok v, 1, [], []⟩
      | .error e =>
        if shouldRetry e = false then ⟨.error e, 1, [], []⟩
        else
          let t := withRetryAux admits op fuel (attempt + 1) (opIdx + 1) (some e)
          ⟨t.result, t.opCalls + 1, t.rejSleeps, (attempt, backoff attempt) :: t.errSleeps⟩

/-- `withRetry(operation, key)` with the rate limiter's answers and the
operation's outcomes supplied as oracles. -/
def withRetry (admits : Nat → Bool) (op : Nat → Except JsError α) : RetryTrace α :=
  withRetryAux admits op RETRY_CONFIG.maxRetries 0 0 none

/-- An `ActionResult` as the enhanced agent's queue machinery returns it:
`{ text, shouldSendMessage }`. -/
structure ActionResult where
  text : String
  shouldSendMessage : Bool
deriving DecidableEq

/-- The queue-related mutable fields of the enhanced `Agent`:
`messageQueue` and the `processingQueue` flag. -/
structure AgentState where
  messageQueue : List Message
  processingQueue : Bool
deriving DecidableEq

def emptyText : String := ""
def queuedText : String := "Message queued for processing"

/-- Outcome of one run of `processMessageQueue`'s `while` loop: the value
returned (or the error rethrown after the `finally`), the messages shifted
and processed, in order, and the messages still queued on exit. -/
structure DrainOut where
  result : Except String ActionResult
  processed : List Message
  remaining : List Message

/-- The `while (messageQueue.length > 0)` loop: shift the head, process it,
keep its result as the running `result`; a throw stops the loop with the
rest of the queue intact. `proc` abstracts `processMessageInternal`. -/
def drainLoop (proc : Message → Except String ActionResult) :
    List Message → ActionResult → DrainOut
  | [], acc => ⟨.ok acc, [], []⟩
  | m :: rest, _ =>
    match proc m with
    | .error e => ⟨.error e, [m], rest⟩
    | .ok r =>
      let d := drainLoop proc rest r
      ⟨d.result, m :: d.processed, d.remaining⟩

/-- `processMessageQueue`: set `processingQueue`, drain, and in the
`finally` clear `processingQueue` whether the loop returned or threw. -/
def processMessageQueue (proc : Message → Except String ActionResult)
    (st : AgentState) : Except String ActionResult × AgentState :=
  let d := drainLoop proc st.messageQueue ⟨emptyText, false⟩
  (d.result, ⟨d.remaining, false⟩)

/-- `processMessage`: validate (propagating a validation error with the
state untouched), push the sanitized message, then either drain the queue
when not already processing or return the queued acknowledgment. -/
def processMessage (proc : Message → Except String ActionResult)
    (st : AgentState) (msg : Message) : Except String ActionResult × AgentState :=
  match validateMessage msg with
  | .error e => (.error e, st)
  | .ok msg2 =>
    let st1 : AgentState := ⟨st.messageQueue ++ [msg2], st.processingQueue⟩
    if st1.processingQueue then (.ok ⟨queuedText, false⟩, st1)
    else processMessageQueue proc st1

end Enhanced

namespace CoreAgent

/-- The result object an action's `execute` resolves to in `core/agent.js`:
`{ text, shouldSendMessage?, context? }` (embeds are irrelevant to dispatch). -/
structure ActionOutcome where
  text : String
  shouldSendMessage : Bool
  context : Option String

/-- A registered action: its `name`, its `shouldExecute` predicate, and its
`execute` result as a function of the message text. -/
structure JsAction where
  name : String
  shouldExecute : String → Bool
  execute : String → ActionOutcome

/-- JS truthiness of `result.context`: absent and the empty string are falsy. -/
def ctxTruthy : Option String → Bool
  | none => false
  | some c => !c.isEmpty

def newlineText : String := "\n"
def emptyCtx : String := ""

/-- `context += '\n' + result.context` guarded by the truthiness of
`result.context`; otherwise the running context is unchanged. -/
def ctxStep (ctx : String) (r : ActionOutcome) : String :=
  if ctxTruthy r.context then ctx ++ newlineText ++ r.context.getD emptyCtx else ctx

/-- What the dispatch loop of `Agent.processMessage` ends in: an action
result was published and returned (`sent`), or the loop fell through to
ordinary generation with the accumulated context (`generate`). -/
inductive DispatchResult where
  | sent : String → DispatchResult
  | generate : String → DispatchResult
deriving DecidableEq

/-- The `for (const action of ...)` dispatch loop over the registered
actions, in registration order: a matching action is executed; a result
with truthy `shouldSendMessage` is published and returned immediately; a
result with truthy `context` appends to the running context and the loop
continues to later actions. Returns the names of the actions whose
`execute` ran, in order, and the loop's outcome. -/
def dispatchActions (msg : String) :
    List JsAction → String → List String × DispatchResult
  | [], ctx => ([], .generate ctx)
  | a :: rest, ctx =>
    if a.shouldExecute msg then
      let r := a.execute msg
      if r.shouldSendMessage then ([a.name], .sent r.text)
      else
        let t := dispatchActions msg rest (ctxStep ctx r)
        (a.name :: t.1, t.2)
    else dispatchActions msg rest ctx

end CoreAgent

namespace MemoryStore

/-- `TTL.CONVERSATION`: 24 hours, in seconds. -/
def TTL_CONVERSATION : Nat := 60 * 60 * 24

/-- `TTL.LONG_TERM`: 30 days, in seconds. -/
def TTL_LONG_TERM : Nat := 60 * 60 * 24 * 30

def convPrefix : String := "conversation:"
def longTermPrefix : String := "long_term:"

/-- Key `"conversation:" + userId`. -/
def convKey (userId : String) : String := convPrefix ++ userId

/-- Key `"long_term:" + userId`. -/
def longTermKey (userId : String) : String := longTermPrefix ++ userId

/-- One KV entry: key, the stored list (the JSON-parsed value), and the
absolute expiry time implied by the `expirationTtl` passed to `put`. -/
structure KVEntry (α : Type) where
  key : String
  val : List α
  expiry : Nat

/-- The backing Cloudflare KV namespace, as an association list. -/
abbrev KVStore (α : Type) : Type := List (KVEntry α)

/-- `kv.get(key)` at time `now`: the stored value if present and not yet
expired, else `null`. -/
def kvGetRaw (now : Nat) (kv : KVStore α) (k : String) : Option (List α) :=
  match List.find? (fun en => en.key == k) kv with
  | some en => if now < en.expiry then some en.val else none
  | none => none

/-- `kv.put(key, value, { expirationTtl })`: replace any entry under the key. -/
def kvPut (kv : KVStore α) (k : String) (v : List α) (exp : Nat) : KVStore α :=
  ⟨k, v, exp⟩ :: List.filter (fun en => !(en.key == k)) kv

/-- `getConversations` as the list it produces: `[]` when the store is
unavailable, when `kv.get` (or parsing) throws (`getFails`), or when the
key is absent/expired; otherwise the parsed list. -/
def getConversationsList (avail getFails : Bool) (now : Nat) (kv : KVStore α)
    (userId : String) : List α :=
  if avail = false then []
  else if getFails then []
  else (kvGetRaw now kv (convKey userId)).getD []

/-- `getConversations`: the `try`/`catch` makes every outcome a normal
return, never a thrown error. -/
def getConversations (avail getFails : Bool) (now : Nat) (kv : KVStore α)
    (userId : String) : Except String (List α) :=
  .ok (getConversationsList avail getFails now kv userId)

/-- `getLongTerm` as the list it produces. -/
def getLongTermList (avail getFails : Bool) (now : Nat) (kv : KVStore α)
    (userId : String) : List α :=
  if avail = false then []
  else if getFails then []
  else (kvGetRaw now kv (longTermKey userId)).getD []

/-- `getLongTerm`: never a thrown error. -/
def getLongTerm (avail getFails : Bool) (now : Nat) (kv : KVStore α)
    (userId : String) : Except String (List α) :=
  .ok (getLongTermList avail getFails now kv userId)

/-- `storeConversation`'s effect on the backing store: no-op when the store
is unavailable; otherwise read the current list through `getConversations`
(whose own catch absorbs read failures), append the message, and `put` the
full list with a fresh 24h TTL — a `put` failure is caught, leaving the
store untouched. -/
def storeConversationKV (avail getFails putFails : Bool) (now : Nat)
    (kv : KVStore α) (userId : String) (msg : α) : KVStore α :=
  if avail = false then kv
  else
    let conversations := getConversationsList avail getFails now kv userId ++ [msg]
    if putFails then kv
    else kvPut kv (convKey userId) conversations (now + TTL_CONVERSATION)

/-- `storeConversation`: every failure path is caught, so the call always
returns normally. -/
def storeConversation (avail getFails putFails : Bool) (now : Nat)
    (kv : KVStore α) (userId : String) (msg : α) : Except String (KVStore α) :=
  .ok (storeConversationKV avail getFails putFails now kv userId msg)

/-- `storeLongTerm`'s effect on the backing store, with the 30-day TTL. -/
def storeLongTermKV (avail getFails putFails : Bool) (now : Nat)
    (kv : KVStore α) (userId : String) (rec : α) : KVStore α :=
  if avail = false then kv
  else
    let memories := getLongTermList avail getFails now kv userId ++ [rec]
    if putFails then kv
    else kvPut kv (longTermKey userId) memories (now + TTL_LONG_TERM)

/-- `storeLongTerm`: always returns normally. -/
def storeLongTerm (avail getFails putFails : Bool) (now : Nat)
    (kv : KVStore α) (userId : String) (rec : α) : Except String (KVStore α) :=
  .ok (storeLongTermKV avail getFails putFails now kv userId rec)

end MemoryStore

/-! Concrete fixtures used by the witness and counterexample theorems. -/

namespace Fixtures

open Enhanced CoreAgent MemoryStore

def platFc : String := "farcaster"
def userA : String := "alice"
def rawEmpty : String := ""
def helloText : String := "hello"

/-- A valid message: platform, nonempty string text, author with username. -/
def okMsg : Message := ⟨.str platFc, .str helloText, some ⟨.str userA⟩, rawEmpty⟩

/-- A message whose text is the empty string (a string, but JS-falsy). -/
def emptyTextMsg : Message := ⟨.str platFc, .str rawEmpty, some ⟨.str userA⟩, rawEmpty⟩

/-- A message with no platform. -/
def noPlatformMsg : Message := ⟨.undef, .str helloText, some ⟨.str userA⟩, rawEmpty⟩

def netFailMsg : String := "connection reset"

/-- A transient error: `name === 'NetworkError'`. -/
def netError : JsError := ⟨networkErrorName, netFailMsg, none⟩

def typeErrorName : String := "TypeError"
def boomMsg : String := "boom"

/-- A permanent error: wrong name, no rate-limit mention, no status. -/
def permError : JsError := ⟨typeErrorName, boomMsg, none⟩

/-- An operation that always throws the transient error. -/
def alwaysNetFail : Nat → Except JsError String := fun _ => .error netError

/-- A rate limiter that always admits. -/
def admitAll : Nat → Bool := fun _ => true

/-- A rate limiter that rejects the check of attempt 0 and admits the rest. -/
def rejectFirstCheck : Nat → Bool := fun a => !(a == 0)

def nameA : String := "A"
def nameB : String := "B"
def nameC : String := "C"
def ctxActText : String := "lookup"
def extraCtx : String := "price data"
def replyText : String := "hi there"
def postText : String := "never seen"
def noCtx : String := ""

/-- An action that matches everything and returns only extra context
(falsy `shouldSendMessage`). -/
def actCtx : JsAction := ⟨nameA, fun _ => true, fun _ => ⟨ctxActText, false, some extraCtx⟩⟩

/-- An action that matches everything and returns a sendable reply. -/
def actSend : JsAction := ⟨nameB, fun _ => true, fun _ => ⟨replyText, true, none⟩⟩

/-- A later action that matches everything; dispatch must never reach it. -/
def actPost : JsAction := ⟨nameC, fun _ => true, fun _ => ⟨postText, true, none⟩⟩

def okText : String := "processed"
def failText : String := "processing blew up"

/-- An internal processor that succeeds on every message. -/
def procOk : Enhanced.Message → Except String Enhanced.ActionResult :=
  fun _ => .ok ⟨okText, true⟩

/-- An internal processor that throws on every message. -/
def procFail : Enhanced.Message → Except String Enhanced.ActionResult :=
  fun _ => .error failText

/-- The sanitized form of `okMsg` that validation pushes onto the queue. -/
def okMsgSan : Message := ⟨.str platFc, .str helloText, some ⟨.str userA⟩, rawEmpty⟩

def turn1 : String := "user: hello"
def turn2 : String := "assistant: hey"

end Fixtures

section ClaimTheorems

open Enhanced CoreAgent MemoryStore Fixtures

/-- Claim C6, counterexample: a message that has a platform, a string text
field (the empty string) and an author with a username still makes
`validateMessage` raise, so the claim as stated fails. -/
theorem validateMessage_rejects_empty_string_text :
    validateMessage emptyTextMsg = .error errNoText := rfl

/-- Claim C6 (amended): for every message with a truthy platform, a
nonempty string text field, and an author with a truthy username,
`validateMessage` returns normally; afterwards the text is the original
text trimmed, with backslash, angle-bracket characters removed, truncated
to at most 2000 characters, and no other field of the message changes. -/
theorem validateMessage_valid_sanitizes (msg : Message) (s : String) (a : Author)
    (hp : msg.platform.truthy = true)
    (ht : msg.text = .str s)
    (hs : s.isEmpty = false)
    (ha : msg.author = some a)
    (hu : a.username.truthy = true) :
    validateMessage msg = .ok ⟨msg.platform, .str (sanitizeText s), msg.author, msg.raw⟩
      ∧ (sanitizeText s).length ≤ 2000 := by
  constructor
  · simp [validateMessage, hp, ht, hs, ha, hu]
  · have hlen : (((jsTrimList s.data).filter (fun c => !harmful c)).take 2000).length ≤ 2000 :=
      List.length_take_le 2000 _
    exact hlen

/-- Witness for the amended claim C6 at a concrete message. -/
theorem validateMessage_valid_sanitizes_witness :
    validateMessage okMsg
        = .ok ⟨.str platFc, .str (sanitizeText helloText), some ⟨.str userA⟩, rawEmpty⟩
      ∧ (sanitizeText helloText).length ≤ 2000 :=
  validateMessage_valid_sanitizes okMsg helloText ⟨.str userA⟩ rfl rfl rfl rfl rfl

/-- Claim C7: a message missing its platform, with missing or non-string
text, or missing an author username makes `validateMessage` raise, and
`processMessage` propagates that error with the queue untouched. -/
theorem validateMessage_invalid_raises (msg : Message)
    (h : msg.platform = .undef ∨ msg.text = .undef ∨ (∃ b, msg.text = .other b)
         ∨ msg.author = none ∨ (∃ a, msg.author = some a ∧ a.username = .undef)) :
    ∃ e, validateMessage msg = .error e
      ∧ ∀ proc st, processMessage proc st msg = (.error e, st) := by
  have hv : ∃ e, validateMessage msg = .error e := by
    by_cases hp : msg.platform.truthy = true
    case neg =>
      rw [Bool.not_eq_true] at hp
      exact ⟨errNoPlatform, by simp [validateMessage, hp]⟩
    case pos =>
      rcases h with h | h | ⟨b, h⟩ | h | ⟨a, h1, h2⟩
      · rw [h] at hp
        simp [JsVal.truthy] at hp
      · exact ⟨errNoText, by simp [validateMessage, hp, h]⟩
      · exact ⟨errNoText, by simp [validateMessage, hp, h]⟩
      · cases htx : msg.text with
        | undef => exact ⟨errNoText, by simp [validateMessage, hp, htx]⟩
        | other b => exact ⟨errNoText, by simp [validateMessage, hp, htx]⟩
        | str s =>
          by_cases hse : s.isEmpty = true
          · exact ⟨errNoText, by simp [validateMessage, hp, htx, hse]⟩
          · rw [Bool.not_eq_true] at hse
            exact ⟨errNoAuthor, by simp [validateMessage, hp, htx, hse, h]⟩
      · cases htx : msg.text with
        | undef => exact ⟨errNoText, by simp [validateMessage, hp, htx]⟩
        | other b => exact ⟨errNoText, by simp [validateMessage, hp, htx]⟩
        | str s =>
          by_cases hse : s.isEmpty = true
          · exact ⟨errNoText, by simp [validateMessage, hp, htx, hse]⟩
          · rw [Bool.not_eq_true] at hse
            have hu : a.username.truthy = false := by rw [h2]; rfl
            exact ⟨errNoAuthor, by simp [validateMessage, hp, htx, hse, h1, hu]⟩
  rcases hv with ⟨e, he⟩
  exact ⟨e, he, fun proc st => by simp [processMessage, he]⟩

/-- Witness for claim C7 at a message with no platform. -/
theorem validateMessage_invalid_raises_witness :
    ∃ e, validateMessage noPlatformMsg = .error e
      ∧ ∀ proc st, processMessage proc st noPlatformMsg = (.error e, st) :=
  validateMessage_invalid_raises noPlatformMsg (Or.inl rfl)

/-- Invariant step for the rate limiter: while a window is live
(every call time at most `resetTime`) and the count stays below the
ceiling, each call admits and increments the count, leaving `resetTime`
untouched. -/
theorem rlCalls_within_window (ts : List Nat) :
    ∀ c r, 1 ≤ c → c + ts.length ≤ RATE_LIMIT_CONFIG.maxRequests →
    (∀ t ∈ ts, t ≤ r) →
    rlCalls ts (some ⟨c, r⟩) = (List.replicate ts.length true, some ⟨c + ts.length, r⟩) := by
  induction ts with
  | nil => intro c r _ _ _; simp [rlCalls]
  | cons t ts ih =>
    intro c r hc hbound hts
    have htr : ¬ t > r := Nat.not_lt.mpr (hts t (by simp))
    have hcount : ¬ c ≥ RATE_LIMIT_CONFIG.maxRequests := by
      simp only [RATE_LIMIT_CONFIG] at hbound ⊢
      simp only [List.length_cons] at hbound
      omega
    have hrec := ih (c + 1) r (by omega)
      (by simp only [List.length_cons] at hbound; omega)
      (fun x hx => hts x (by simp [hx]))
    simp only [rlCalls, checkRateLimit, htr, hcount, if_false, if_neg htr, if_neg hcount]
    simp [hrec, List.replicate_succ]
    omega

/-- Claim C5: for a fresh rate-limit key, the first `maxRequests = 50`
calls within the window all admits (the first opening a window with
`resetTime = t1 + timeWindow`), the 51st call within the same window
rejects without changing the window, and a call after `resetTime` has
passed opens a fresh window (`count = 1`, `resetTime = now + timeWindow`)
and admits. -/
theorem checkRateLimit_window (t1 tR tN c2 r2 : Nat) (ts : List Nat)
    (hlen : ts.length = RATE_LIMIT_CONFIG.maxRequests - 1)
    (hts : ∀ t ∈ ts, t ≤ t1 + RATE_LIMIT_CONFIG.timeWindow)
    (hR : tR ≤ t1 + RATE_LIMIT_CONFIG.timeWindow)
    (hN : tN > r2) :
    rlCalls (t1 :: ts) none
      = (List.replicate RATE_LIMIT_CONFIG.maxRequests true,
         some ⟨RATE_LIMIT_CONFIG.maxRequests, t1 + RATE_LIMIT_CONFIG.timeWindow⟩)
    ∧ checkRateLimit tR
        (some ⟨RATE_LIMIT_CONFIG.maxRequests, t1 + RATE_LIMIT_CONFIG.timeWindow⟩)
      = (false, some ⟨RATE_LIMIT_CONFIG.maxRequests, t1 + RATE_LIMIT_CONFIG.timeWindow⟩)
    ∧ checkRateLimit tN (some ⟨c2, r2⟩)
      = (true, some ⟨1, tN + RATE_LIMIT_CONFIG.timeWindow⟩) := by
  refine ⟨?_, ?_, ?_⟩
  · have hrec := rlCalls_within_window ts 1 (t1 + RATE_LIMIT_CONFIG.timeWindow)
      (le_refl 1) (by rw [hlen]; decide) hts
    simp only [rlCalls, checkRateLimit, hrec, hlen]
    rfl
  · have hfull : RATE_LIMIT_CONFIG.maxRequests ≥ RATE_LIMIT_CONFIG.maxRequests := le_refl _
    simp [checkRateLimit, Nat.not_lt.mpr hR, hfull]
  · simp [checkRateLimit, hN]

/-- Witness for claim C5: 51 calls at time 0 on a fresh key, then a call
after the window has passed. -/
theorem checkRateLimit_window_witness :
    rlCalls (0 :: List.replicate 49 0) none
      = (List.replicate 50 true, some ⟨50, 60000⟩)
    ∧ checkRateLimit 0 (some ⟨50, 60000⟩) = (false, some ⟨50, 60000⟩)
    ∧ checkRateLimit 60001 (some ⟨50, 60000⟩) = (true, some ⟨1, 120001⟩) := by
  have h := checkRateLimit_window 0 0 60001 50 60000 (List.replicate 49 0)
    rfl (by simp) (by simp) (by omega)
  simpa using h

/-- One loop iteration under a rate-limit rejection: `continue` still runs
the `attempt++` update, so the recursion proceeds at `attempt + 1` with one
unit of fuel spent and a backoff sleep recorded. -/
theorem withRetryAux_reject_eq (admits : Nat → Bool) (op : Nat → Except JsError α)
    (n attempt opIdx : Nat) (le : Option JsError) (ha : admits attempt = false) :
    withRetryAux admits op (n + 1) attempt opIdx le
      = ⟨(withRetryAux admits op n (attempt + 1) opIdx le).result,
         (withRetryAux admits op n (attempt + 1) opIdx le).opCalls,
         (attempt, backoff attempt) :: (withRetryAux admits op n (attempt + 1) opIdx le).rejSleeps,
         (withRetryAux admits op n (attempt + 1) opIdx le).errSleeps⟩ := by
  simp [withRetryAux, ha]

/-- One loop iteration where the limiter admits and the operation succeeds:
return immediately with a single invocation. -/
theorem withRetryAux_ok_eq (admits : Nat → Bool) (op : Nat → Except JsError α)
    (n attempt opIdx : Nat) (le : Option JsError) (v : α)
    (ha : admits attempt = true) (hop : op opIdx = .ok v) :
    withRetryAux admits op (n + 1) attempt opIdx le = ⟨.ok v, 1, [], []⟩ := by
  simp [withRetryAux, ha, hop]

/-- One loop iteration where the operation throws a non-retryable error:
the error is rethrown at once after a single invocation. -/
theorem withRetryAux_permanent_eq (admits : Nat → Bool) (op : Nat → Except JsError α)
    (n attempt opIdx : Nat) (le : Option JsError) (e : JsError)
    (ha : admits attempt = true) (hop : op opIdx = .error e)
    (hre : shouldRetry e = false) :
    withRetryAux admits op (n + 1) attempt opIdx le = ⟨.error e, 1, [], []⟩ := by
  simp [withRetryAux, ha, hop, hre]

/-- One loop iteration where the operation throws a retryable error:
record the invocation and the backoff sleep and continue with the next
attempt index and `lastError = e`. -/
theorem withRetryAux_transient_eq (admits : Nat → Bool) (op : Nat → Except JsError α)
    (n attempt opIdx : Nat) (le : Option JsError) (e : JsError)
    (ha : admits attempt = true) (hop : op opIdx = .error e)
    (hre : shouldRetry e = true) :
    withRetryAux admits op (n + 1) attempt opIdx le
      = ⟨(withRetryAux admits op n (attempt + 1) (opIdx + 1) (some e)).result,
         (withRetryAux admits op n (attempt + 1) (opIdx + 1) (some e)).opCalls + 1,
         (withRetryAux admits op n (attempt + 1) (opIdx + 1) (some e)).rejSleeps,
         (attempt, backoff attempt)
           :: (withRetryAux admits op n (attempt + 1) (opIdx + 1) (some e)).errSleeps⟩ := by
  simp [withRetryAux, ha, hop, hre]

/-- Every rejection sleep uses the capped exponential backoff of the
attempt at which it occurred, and invocations plus rejections never exceed
the fuel: each rejection spends one loop iteration. -/
theorem withRetryAux_budget (admits : Nat → Bool) (op : Nat → Except JsError α) :
    ∀ fuel attempt opIdx le,
      (∀ p ∈ (withRetryAux admits op fuel attempt opIdx le).rejSleeps, p.2 = backoff p.1)
      ∧ (withRetryAux admits op fuel attempt opIdx le).opCalls
          + (withRetryAux admits op fuel attempt opIdx le).rejSleeps.length ≤ fuel := by
  intro fuel
  induction fuel with
  | zero =>
    intro attempt opIdx le
    constructor
    · intro p hp
      simp [withRetryAux] at hp
    · simp [withRetryAux]
  | succ n ih =>
    intro attempt opIdx le
    by_cases ha : admits attempt = false
    · rcases ih (attempt + 1) opIdx le with ⟨ih1, ih2⟩
      rw [withRetryAux_reject_eq admits op n attempt opIdx le ha]
      constructor
      · intro p hp
        rcases List.mem_cons.mp hp with hp1 | hp2
        · rw [hp1]
        · exact ih1 p hp2
      · show (withRetryAux admits op n (attempt + 1) opIdx le).opCalls
            + ((attempt, backoff attempt)
                :: (withRetryAux admits op n (attempt + 1) opIdx le).rejSleeps).length ≤ n + 1
        simp only [List.length_cons]
        omega
    · rw [Bool.not_eq_false] at ha
      cases hop : op opIdx with
      | ok v =>
        rw [withRetryAux_ok_eq admits op n attempt opIdx le v ha hop]
        constructor
        · intro p hp
          simp at hp
        · simp
      | error e =>
        by_cases hre : shouldRetry e = false
        · rw [withRetryAux_permanent_eq admits op n attempt opIdx le e ha hop hre]
          constructor
          · intro p hp
            simp at hp
          · simp
        · rw [Bool.not_eq_false] at hre
          rcases ih (attempt + 1) (opIdx + 1) (some e) with ⟨ih1, ih2⟩
          rw [withRetryAux_transient_eq admits op n attempt opIdx le e ha hop hre]
          constructor
          · intro p hp
            exact ih1 p hp
          · show (withRetryAux admits op n (attempt + 1) (opIdx + 1) (some e)).opCalls + 1
                + (withRetryAux admits op n (attempt + 1) (opIdx + 1) (some e)).rejSleeps.length
                ≤ n + 1
            omega

/-- Claim C1, counterexample: with an operation that always throws the
transient network error, an all-admitting limiter yields
`maxRetries = 3` invocations, but a limiter that rejects once (at
attempt 0, sleeping `min(maxDelay, baseDelay * 2^0) = 1000`) leaves only
2 invocations: a rejection advances the attempt index and so does consume
one of the `maxRetries` attempts. -/
theorem withRetry_rejection_loses_attempt :
    (withRetry admitAll alwaysNetFail).opCalls = RETRY_CONFIG.maxRetries
    ∧ (withRetry rejectFirstCheck alwaysNetFail).rejSleeps = [(0, 1000)]
    ∧ (withRetry rejectFirstCheck alwaysNetFail).opCalls = 2 := by
  decide

/-- Claim C1 (amended): on every rate-limit rejection the executor sleeps
`min(maxDelay, baseDelay * 2^attempt)` for the attempt at which the
rejection occurred and then proceeds to the NEXT attempt index, so each
rejection consumes one of the `maxRetries` loop iterations: invocations of
the wrapped operation plus rejections never exceed `maxRetries`. -/
theorem withRetry_rejection_backoff_and_budget (admits : Nat → Bool)
    (op : Nat → Except JsError α) :
    (∀ p ∈ (withRetry admits op).rejSleeps,
        p.2 = min RETRY_CONFIG.maxDelay (RETRY_CONFIG.baseDelay * 2 ^ p.1))
    ∧ (withRetry admits op).opCalls + (withRetry admits op).rejSleeps.length
        ≤ RETRY_CONFIG.maxRetries := by
  have h := withRetryAux_budget admits op RETRY_CONFIG.maxRetries 0 0 none
  exact ⟨fun p hp => h.1 p hp, h.2⟩

/-- Witness for the amended claim C1: the concrete rejected-first run has
its single rejection sleep equal to the capped backoff of attempt 0, and
its invocations plus rejections fit in the retry budget. -/
theorem withRetry_rejection_backoff_and_budget_witness :
    ((0 : Nat), (1000 : Nat)).2
        = min RETRY_CONFIG.maxDelay (RETRY_CONFIG.baseDelay * 2 ^ ((0 : Nat), (1000 : Nat)).1)
    ∧ (withRetry rejectFirstCheck alwaysNetFail).opCalls
        + (withRetry rejectFirstCheck alwaysNetFail).rejSleeps.length
        ≤ RETRY_CONFIG.maxRetries := by
  have h := withRetry_rejection_backoff_and_budget rejectFirstCheck alwaysNetFail
  exact ⟨h.1 (0, 1000) (by decide), h.2⟩

/-- A run of the retry loop whose operation throws a retryable error on
each of the next `n` invocations and then succeeds: the success is
returned and the operation runs `n + 1` times. -/
theorem withRetryAux_transient_run (op : Nat → Except JsError α)
    (e : JsError) (v : α) (hre : shouldRetry e = true) :
    ∀ n a i le, (∀ j, j < n → op (i + j) = .error e) → op (i + n) = .ok v →
      (withRetryAux admitAll op (n + 1) a i le).result = .ok v
      ∧ (withRetryAux admitAll op (n + 1) a i le).opCalls = n + 1 := by
  intro n
  induction n with
  | zero =>
    intro a i le _ hok
    rw [withRetryAux_ok_eq admitAll op 0 a i le v rfl (by simpa using hok)]
    exact ⟨rfl, rfl⟩
  | succ m ih =>
    intro a i le hfail hok
    have h0 : op i = .error e := by simpa using hfail 0 (Nat.succ_pos m)
    rw [withRetryAux_transient_eq admitAll op (m + 1) a i le e rfl h0 hre]
    have hin := ih (a + 1) (i + 1) (some e)
      (fun j hj => by
        rw [show i + 1 + j = i + (j + 1) by omega]
        exact hfail (j + 1) (by omega))
      (by rw [show i + 1 + m = i + (m + 1) by omega]; exact hok)
    refine ⟨hin.1, ?_⟩
    show (withRetryAux admitAll op (m + 1) (a + 1) (i + 1) (some e)).opCalls + 1 = m + 1 + 1
    rw [hin.2]

/-- Claim C3: with the limiter admitting, an operation that always throws
a non-retryable error (per `shouldRetry`: not a NetworkError, no rate-limit
mention, no status in 429/502/503) is invoked exactly once and that error
is rethrown; an operation that throws a retryable error on its first
`maxRetries - 1` invocations and succeeds on the next returns the success
with at most `maxRetries` invocations. -/
theorem withRetry_error_classification (e1 e2 : JsError) (v : String)
    (h1 : shouldRetry e1 = false) (h2 : shouldRetry e2 = true) :
    (withRetry admitAll (fun _ => (.error e1 : Except JsError String))).result = .error e1
    ∧ (withRetry admitAll (fun _ => (.error e1 : Except JsError String))).opCalls = 1
    ∧ (withRetry admitAll (fun k =>
        if k < RETRY_CONFIG.maxRetries - 1 then (.error e2 : Except JsError String)
        else .ok v)).result = .ok v
    ∧ (withRetry admitAll (fun k =>
        if k < RETRY_CONFIG.maxRetries - 1 then (.error e2 : Except JsError String)
        else .ok v)).opCalls ≤ RETRY_CONFIG.maxRetries := by
  have hperm :
      withRetryAux admitAll (fun _ => (.error e1 : Except JsError String))
          (2 + 1) 0 0 none
        = ⟨.error e1, 1, [], []⟩ :=
    withRetryAux_permanent_eq admitAll _ 2 0 0 none e1 rfl rfl h1
  have hm : RETRY_CONFIG.maxRetries = 3 := rfl
  have hfail : ∀ j, j < 2 →
      (fun k => if k < RETRY_CONFIG.maxRetries - 1 then (.error e2 : Except JsError String)
        else .ok v) (0 + j) = .error e2 := by
    intro j hj
    have hj2 : 0 + j < RETRY_CONFIG.maxRetries - 1 := by omega
    simp only [if_pos hj2]
  have hok :
      (fun k => if k < RETRY_CONFIG.maxRetries - 1 then (.error e2 : Except JsError String)
        else .ok v) (0 + 2) = .ok v := by
    have hn : ¬ (0 + 2 < RETRY_CONFIG.maxRetries - 1) := by omega
    simp only [if_neg hn]
  have htr := withRetryAux_transient_run
    (fun k => if k < RETRY_CONFIG.maxRetries - 1 then (.error e2 : Except JsError String)
      else .ok v) e2 v h2 2 0 0 none hfail hok
  exact ⟨by rw [show withRetry admitAll (fun _ => (.error e1 : Except JsError String))
            = withRetryAux admitAll _ (2 + 1) 0 0 none from rfl, hperm],
    by rw [show withRetry admitAll (fun _ => (.error e1 : Except JsError String))
            = withRetryAux admitAll _ (2 + 1) 0 0 none from rfl, hperm],
    htr.1, by rw [show (withRetry admitAll (fun k =>
        if k < RETRY_CONFIG.maxRetries - 1 then (.error e2 : Except JsError String)
        else .ok v)).opCalls
      = (withRetryAux admitAll (fun k =>
        if k < RETRY_CONFIG.maxRetries - 1 then (.error e2 : Except JsError String)
        else .ok v) (2 + 1) 0 0 none).opCalls from rfl, htr.2, hm]⟩

/-- Witness for claim C3 at the concrete permanent and transient errors. -/
theorem withRetry_error_classification_witness :
    (withRetry admitAll (fun _ => (.error permError : Except JsError String))).result
        = .error permError
    ∧ (withRetry admitAll (fun _ => (.error permError : Except JsError String))).opCalls = 1
    ∧ (withRetry admitAll (fun k =>
        if k < RETRY_CONFIG.maxRetries - 1 then (.error netError : Except JsError String)
        else .ok okText)).result = .ok okText
    ∧ (withRetry admitAll (fun k =>
        if k < RETRY_CONFIG.maxRetries - 1 then (.error netError : Except JsError String)
        else .ok okText)).opCalls ≤ RETRY_CONFIG.maxRetries :=
  withRetry_error_classification permError netError okText (by decide) (by decide)

/-- Dispatch step: a non-matching action is skipped. -/
theorem dispatchActions_cons_nomatch (msg : String) (b : JsAction)
    (rest : List JsAction) (ctx : String) (hb : b.shouldExecute msg = false) :
    dispatchActions msg (b :: rest) ctx = dispatchActions msg rest ctx := by
  simp [dispatchActions, hb]

/-- Dispatch step: a matching action whose result sends short-circuits. -/
theorem dispatchActions_cons_send (msg : String) (b : JsAction)
    (rest : List JsAction) (ctx : String) (hb : b.shouldExecute msg = true)
    (hbs : (b.execute msg).shouldSendMessage = true) :
    dispatchActions msg (b :: rest) ctx = ([b.name], .sent (b.execute msg).text) := by
  simp [dispatchActions, hb, hbs]

/-- Dispatch step: a matching action whose result does not send is
executed, contributes context, and the loop continues. -/
theorem dispatchActions_cons_match_nosend (msg : String) (b : JsAction)
    (rest : List JsAction) (ctx : String) (hb : b.shouldExecute msg = true)
    (hbs : (b.execute msg).shouldSendMessage = false) :
    dispatchActions msg (b :: rest) ctx
      = (b.name :: (dispatchActions msg rest (ctxStep ctx (b.execute msg))).1,
         (dispatchActions msg rest (ctxStep ctx (b.execute msg))).2) := by
  simp [dispatchActions, hb, hbs]

/-- Claim C2, counterexample: two registered actions both match, the first
returns a context-only result (falsy `shouldSendMessage`), and the
dispatch loop then also invokes the second matching action's `execute` —
the first match does not preempt later matches. -/
theorem dispatch_executes_later_match :
    actCtx.shouldExecute helloText = true
    ∧ actSend.shouldExecute helloText = true
    ∧ (dispatchActions helloText [actCtx, actSend] noCtx).1 = [nameA, nameB] := by
  decide

/-- Claim C2 (amended): matching actions are executed in registration
order; the first matching action whose `execute` result has a truthy
`shouldSendMessage` short-circuits the dispatch — its text is returned and
no later action (matching or not) is evaluated — while earlier matching
actions with falsy `shouldSendMessage` are also executed (contributing
context) before it. -/
theorem dispatch_first_sender_wins (msg : String) (post : List JsAction) (a : JsAction)
    (ha : a.shouldExecute msg = true) (hs : (a.execute msg).shouldSendMessage = true) :
    ∀ (pre : List JsAction) (ctx : String),
      (∀ b ∈ pre, b.shouldExecute msg = true → (b.execute msg).shouldSendMessage = false) →
      (dispatchActions msg (pre ++ a :: post) ctx).1
          = List.map JsAction.name (List.filter (fun b => b.shouldExecute msg) pre) ++ [a.name]
      ∧ (dispatchActions msg (pre ++ a :: post) ctx).2 = .sent (a.execute msg).text := by
  intro pre
  induction pre with
  | nil =>
    intro ctx _
    rw [List.nil_append, dispatchActions_cons_send msg a post ctx ha hs]
    simp
  | cons b rest ih =>
    intro ctx hpre
    rw [List.cons_append]
    by_cases hb : b.shouldExecute msg = true
    · have hbs : (b.execute msg).shouldSendMessage = false := hpre b (by simp) hb
      rw [dispatchActions_cons_match_nosend msg b (rest ++ a :: post) ctx hb hbs]
      have hrec := ih (ctxStep ctx (b.execute msg))
        (fun c hc hcm => hpre c (by simp [hc]) hcm)
      constructor
      · show b.name :: (dispatchActions msg (rest ++ a :: post) (ctxStep ctx (b.execute msg))).1
            = _
        rw [hrec.1]
        simp [List.filter_cons, hb]
      · exact hrec.2
    · have hb2 : b.shouldExecute msg = false := by
        rw [Bool.not_eq_true] at hb
        exact hb
      rw [dispatchActions_cons_nomatch msg b (rest ++ a :: post) ctx hb2]
      have hrec := ih ctx (fun c hc hcm => hpre c (by simp [hc]) hcm)
      refine ⟨?_, hrec.2⟩
      rw [hrec.1]
      simp [List.filter_cons, hb2]

/-- Witness for the amended claim C2: a context-only matching action, then
the sending action, then a later matching action that is never reached. -/
theorem dispatch_first_sender_wins_witness :
    (dispatchActions helloText ([actCtx] ++ actSend :: [actPost]) noCtx).1
        = List.map JsAction.name (List.filter (fun b => b.shouldExecute helloText) [actCtx])
          ++ [actSend.name]
    ∧ (dispatchActions helloText ([actCtx] ++ actSend :: [actPost]) noCtx).2
        = .sent (actSend.execute helloText).text :=
  dispatch_first_sender_wins helloText [actPost] actSend rfl rfl [actCtx] noCtx
    (fun b hb hm => by
      have hb2 : b = actCtx := by simpa using hb
      rw [hb2]
      rfl)

/-- Draining a queue whose every message processes successfully, with the
enqueued message last: the messages are shifted and processed in FIFO
order (all of them), the queue empties, and the loop's final `result` is
the result of the last message. -/
theorem drainLoop_append_ok (proc : Enhanced.Message → Except String Enhanced.ActionResult)
    (m : Enhanced.Message) (rm : Enhanced.ActionResult) (hm : proc m = .ok rm) :
    ∀ (l : List Enhanced.Message) (acc : Enhanced.ActionResult),
      (∀ x ∈ l, ∃ r, proc x = .ok r) →
      drainLoop proc (l ++ [m]) acc = ⟨.ok rm, l ++ [m], []⟩ := by
  intro l
  induction l with
  | nil =>
    intro acc _
    simp [drainLoop, hm]
  | cons x rest ih =>
    intro acc hall
    rcases hall x (by simp) with ⟨rx, hrx⟩
    have hrec := ih rx (fun y hy => hall y (by simp [hy]))
    simp only [List.cons_append, drainLoop, hrx, List.append_eq, hrec]

/-- Claim C4: for a message that passes validation, a call made while the
processor is already draining appends the sanitized message to the queue
and returns the immediate queued acknowledgment without draining; a call
made while idle drains the whole queue (the enqueued message last) one
message at a time in FIFO order and returns the result of the last message
drained during that call, leaving the queue empty. -/
theorem processMessage_queue_behavior
    (proc : Enhanced.Message → Except String Enhanced.ActionResult)
    (st : AgentState) (msg msg2 : Enhanced.Message) (rlast : Enhanced.ActionResult)
    (hv : validateMessage msg = .ok msg2) :
    (st.processingQueue = true →
      processMessage proc st msg
        = (.ok ⟨queuedText, false⟩, ⟨st.messageQueue ++ [msg2], true⟩))
    ∧ (st.processingQueue = false →
        (∀ x ∈ st.messageQueue, ∃ r, proc x = .ok r) →
        proc msg2 = .ok rlast →
        processMessage proc st msg = (.ok rlast, ⟨[], false⟩)
        ∧ (drainLoop proc (st.messageQueue ++ [msg2]) ⟨emptyText, false⟩).processed
            = st.messageQueue ++ [msg2]) := by
  constructor
  · intro hq
    simp [processMessage, hv, hq]
  · intro hq hall hlast
    have hdrain := drainLoop_append_ok proc msg2 rlast hlast st.messageQueue
      ⟨emptyText, false⟩ hall
    constructor
    · simp [processMessage, hv, hq, processMessageQueue, hdrain]
    · rw [hdrain]

/-- Witness for claim C4 at a concrete message, once against a draining
processor and once against an idle one. -/
theorem processMessage_queue_behavior_witness :
    processMessage procOk ⟨[], true⟩ okMsg
        = (.ok ⟨queuedText, false⟩, ⟨[] ++ [okMsgSan], true⟩)
    ∧ (processMessage procOk ⟨[], false⟩ okMsg = (.ok ⟨okText, true⟩, ⟨[], false⟩)
       ∧ (drainLoop procOk ([] ++ [okMsgSan]) ⟨emptyText, false⟩).processed
           = [] ++ [okMsgSan]) :=
  ⟨(processMessage_queue_behavior procOk ⟨[], true⟩ okMsg okMsgSan ⟨okText, true⟩ rfl).1 rfl,
   (processMessage_queue_behavior procOk ⟨[], false⟩ okMsg okMsgSan ⟨okText, true⟩ rfl).2
     rfl (by intro x hx; simp at hx) rfl⟩

/-- Claim C10: `processMessageQueue` always exits with `processingQueue`
back to `false` — the `finally` clears the flag whether the drain loop
returned normally or a message's processing threw — and a `processMessage`
call that found the processor idle also completes with the flag `false`,
whether it returned a result, rethrew a processing error, or raised a
validation error, so a later call can start a new drain of any messages
still queued. -/
theorem processingQueue_cleared_on_exit
    (proc : Enhanced.Message → Except String Enhanced.ActionResult)
    (st : AgentState) (msg : Enhanced.Message) :
    (processMessageQueue proc st).2.processingQueue = false
    ∧ (st.processingQueue = false →
        (processMessage proc st msg).2.processingQueue = false) := by
  constructor
  · rfl
  · intro hq
    cases hv : validateMessage msg with
    | error e => simp [processMessage, hv, hq]
    | ok m2 => simp [processMessage, hv, hq, processMessageQueue]

/-- Witness for claim C10, with a processor that throws on every message:
the flag is still cleared on exit. -/
theorem processingQueue_cleared_on_exit_witness :
    (processMessageQueue procFail ⟨[okMsgSan], true⟩).2.processingQueue = false
    ∧ (processMessage procFail ⟨[], false⟩ okMsg).2.processingQueue = false :=
  ⟨(processingQueue_cleared_on_exit procFail ⟨[okMsgSan], true⟩ okMsg).1,
   (processingQueue_cleared_on_exit procFail ⟨[], false⟩ okMsg).2 rfl⟩

/-- Claim C8: reads never raise; they return the empty list whenever the
store is unavailable (cached at construction), the read fails, or the key
is absent/expired; and writes complete as no-ops, without propagating any
error, whenever the store is unavailable or the write fails. -/
theorem memory_failure_policy (α : Type) (avail getFails putFails : Bool)
    (now : Nat) (kv : KVStore α) (u : String) (m : α) :
    (∃ l l2 : List α, getConversations avail getFails now kv u = .ok l
        ∧ getLongTerm avail getFails now kv u = .ok l2)
    ∧ (avail = false ∨ getFails = true
        ∨ (kvGetRaw now kv (convKey u) = none ∧ kvGetRaw now kv (longTermKey u) = none) →
        getConversations avail getFails now kv u = .ok []
        ∧ getLongTerm avail getFails now kv u = .ok [])
    ∧ (avail = false ∨ putFails = true →
        storeConversation avail getFails putFails now kv u m = .ok kv
        ∧ storeLongTerm avail getFails putFails now kv u m = .ok kv) := by
  refine ⟨⟨_, _, rfl, rfl⟩, ?_, ?_⟩
  · intro h
    rcases h with h | h | ⟨h1, h2⟩
    · subst h
      exact ⟨by simp [getConversations, getConversationsList],
        by simp [getLongTerm, getLongTermList]⟩
    · subst h
      cases avail <;>
        exact ⟨by simp [getConversations, getConversationsList],
          by simp [getLongTerm, getLongTermList]⟩
    · cases avail <;> cases getFails <;>
        exact ⟨by simp [getConversations, getConversationsList, h1],
          by simp [getLongTerm, getLongTermList, h2]⟩
  · intro h
    rcases h with h | h
    · subst h
      exact ⟨by simp [storeConversation, storeConversationKV],
        by simp [storeLongTerm, storeLongTermKV]⟩
    · subst h
      cases avail <;>
        exact ⟨by simp [storeConversation, storeConversationKV],
          by simp [storeLongTerm, storeLongTermKV]⟩

/-- Witness for claim C8 on the empty store (key absent) with failing
reads and writes. -/
theorem memory_failure_policy_witness :
    (∃ l l2 : List String, getConversations true true 0 [] userA = .ok l
        ∧ getLongTerm true true 0 [] userA = .ok l2)
    ∧ (getConversations true true 0 ([] : KVStore String) userA = .ok []
        ∧ getLongTerm true true 0 ([] : KVStore String) userA = .ok [])
    ∧ (storeConversation true true true 0 ([] : KVStore String) userA turn1 = .ok []
        ∧ storeLongTerm true true true 0 ([] : KVStore String) userA turn1 = .ok []) := by
  have h := memory_failure_policy String true true true 0 [] userA turn1
  exact ⟨h.1, h.2.1 (Or.inr (Or.inl rfl)), h.2.2 (Or.inr rfl)⟩

/-- The entry just written by `kvPut` is the one `find?` locates under its
key. -/
theorem kvPut_find (kv : KVStore α) (k : String) (v : List α) (exp : Nat) :
    List.find? (fun en => en.key == k) (kvPut kv k v exp) = some ⟨k, v, exp⟩ := by
  simp only [kvPut]
  apply List.find?_cons_of_pos
  simp

/-- Claim C9: with the store available and get/put succeeding,
`storeConversation u m` followed by `getConversations u` before the
24-hour TTL has elapsed yields the previously stored list with `m`
appended as the last element; once the TTL has elapsed the key has
expired and `getConversations u` yields the empty list. -/
theorem memory_roundtrip (α : Type) (now t1 t2 : Nat) (kv : KVStore α)
    (u : String) (m : α)
    (h1 : t1 < now + TTL_CONVERSATION) (h2 : now + TTL_CONVERSATION ≤ t2) :
    getConversations true false t1 (storeConversationKV true false false now kv u m) u
      = .ok (getConversationsList true false now kv u ++ [m])
    ∧ getConversations true false t2 (storeConversationKV true false false now kv u m) u
      = .ok [] := by
  have hstore : storeConversationKV true false false now kv u m
      = kvPut kv (convKey u) (getConversationsList true false now kv u ++ [m])
          (now + TTL_CONVERSATION) := by
    simp [storeConversationKV]
  have hget : ∀ t, kvGetRaw t (storeConversationKV true false false now kv u m) (convKey u)
      = if t < now + TTL_CONVERSATION
        then some (getConversationsList true false now kv u ++ [m])
        else none := by
    intro t
    rw [hstore]
    simp [kvGetRaw, kvPut_find]
  constructor
  · simp [getConversations, getConversationsList, hget, h1]
  · simp [getConversations, getConversationsList, hget, Nat.not_lt.mpr h2]

/-- Witness for claim C9 on the empty store, one second before the TTL
boundary and at it. -/
theorem memory_roundtrip_witness :
    getConversations true false 86399
        (storeConversationKV true false false 0 [] userA turn1) userA
      = .ok (getConversationsList true false 0 [] userA ++ [turn1])
    ∧ getConversations true false 86400
        (storeConversationKV true false false 0 ([] : KVStore String) userA turn1) userA
      = .ok [] :=
  memory_roundtrip String 0 86399 86400 [] userA turn1 (by decide) (by decide)

end ClaimTheorems
